import Mathlib

/-!
Verification development for the AnkiAuto repository.

The parsing engine (src/parsers.py) and the import worker
(src/main_gui.py) are embedded as executable Lean functions; the
AnkiConnect helpers (src/anki_utils.py) are embedded as pure
query/trace builders.  Python regular expressions are embedded by
specialized backtracking matchers whose search order mirrors the
greedy/lazy semantics of the corresponding pattern; the line is
stripped before any pattern is tried (src/parsers.py lines 15 and
116), so it cannot end in a newline and Python's `$` coincides with
end-of-string.
-/

set_option maxRecDepth 10000

namespace AnkiAuto

/-- Python `str.isspace` character set, which is also the set matched by
`\s` in a `str` regex: ASCII whitespace, the C0 separators 0x1c-0x1f,
0x85, and the Unicode space/line/paragraph separators.  Both
`str.strip()` and the `\s` of the patterns in src/parsers.py use it. -/
def isPySpace (c : Char) : Bool :=
  (9 ≤ c.toNat && c.toNat ≤ 13) || c.toNat = 32 ||
  (28 ≤ c.toNat && c.toNat ≤ 31) || c.toNat = 0x85 || c.toNat = 0xa0 ||
  c.toNat = 0x1680 || (0x2000 ≤ c.toNat && c.toNat ≤ 0x200a) ||
  c.toNat = 0x2028 || c.toNat = 0x2029 || c.toNat = 0x202f ||
  c.toNat = 0x205f || c.toNat = 0x3000

/-- Character class `[぀-ヿ一-鿿。、「」々]`,
the `jp_char_class` of src/parsers.py line 42. -/
def isJP (c : Char) : Bool :=
  (0x3040 ≤ c.toNat && c.toNat ≤ 0x30FF) ||
  (0x4e00 ≤ c.toNat && c.toNat ≤ 0x9fff) ||
  c.toNat = 0x3002 || c.toNat = 0x3001 || c.toNat = 0x300C ||
  c.toNat = 0x300D || c.toNat = 0x3005

/-- Effect of `line.replace('​', '')` (src/parsers.py lines 15, 116):
every zero-width space is removed. -/
def removeZWSP (l : List Char) : List Char := l.filter (fun c => c != '​')

/-- Drop trailing characters satisfying `isPySpace`. -/
def dropTrailingWS (l : List Char) : List Char :=
  (l.reverse.dropWhile isPySpace).reverse

/-- Python `str.strip()` on a list of characters. -/
def pstrip (l : List Char) : List Char := dropTrailingWS (l.dropWhile isPySpace)

/-- Python `str.strip()` on a `String`. -/
def pstripS (s : String) : String := String.mk (pstrip s.data)

/-- Matcher for the common regex tail `\s*(.+)$` (greedy `\s*` with
backtracking): returns group 2 on success.  When the head is whitespace
it is first consumed by `\s*`; if the remainder of the pattern then
fails, the engine backtracks and lets `(.+)` start at that character. -/
def wsStarDotPlus : List Char → Option (List Char)
  | [] => none
  | c :: cs =>
    if isPySpace c then
      match wsStarDotPlus cs with
      | some g => some g
      | none => if (c :: cs).all (fun d => d != '\n') then some (c :: cs) else none
    else
      if (c :: cs).all (fun d => d != '\n') then some (c :: cs) else none

/-- Scanner for `^(\(.+?\))\s*(.+)$` after the opening parenthesis and the
first (forced) character of the lazy `.+?`: `middle` holds the characters
matched by `.+?` so far; the head of the remaining text is tried as the
closing `)` (lazy: shortest middle first), and when the rest of the
pattern fails there, the `)` is absorbed into the middle and the scan
continues (backtracking).  `.` does not match a newline. -/
def kanjiClose (middle : List Char) : List Char → Option (List Char × List Char)
  | [] => none
  | c :: cs =>
    if c = ')' then
      match wsStarDotPlus cs with
      | some g2 => some ('(' :: middle ++ [')'], g2)
      | none => kanjiClose (middle ++ [c]) cs
    else if c = '\n' then none
    else kanjiClose (middle ++ [c]) cs

/-- Matcher for `re.match(r'^(\(.+?\))\s*(.+)$', line)` (src/parsers.py line 20),
returning (group 1, group 2). -/
def matchKanjiFormat : List Char → Option (List Char × List Char)
  | c0 :: c1 :: rest => if c0 = '(' && c1 != '\n' then kanjiClose [c1] rest else none
  | _ => none

/-- Matcher for the part of the vocabulary pattern after group 1:
`\s*[^ \s<jp>].*$` applied at the current position.  `\s*` is greedy and
needs no backtracking case: the negated character class excludes
whitespace, so stopping `\s*` early always fails. -/
def vocabRest : List Char → Bool
  | [] => false
  | c :: cs =>
    if isPySpace c then vocabRest cs
    else !(isJP c) && cs.all (fun d => d != '\n')

/-- Greedy `(<jp>+)` of the vocabulary pattern with backtracking: the
Japanese run is extended first; when the rest of the pattern fails the
run is retried one character shorter, group 2 then starting at the
current position. -/
def vocabTry (acc : List Char) : List Char → Option (List Char × List Char)
  | [] => none
  | c :: cs =>
    if isJP c then
      match vocabTry (acc ++ [c]) cs with
      | some r => some r
      | none => if vocabRest (c :: cs) then some (acc, c :: cs) else none
    else
      if vocabRest (c :: cs) then some (acc, c :: cs) else none

/-- Matcher for `vocab_pattern_initial_split.match(line)` (src/parsers.py lines 44-48),
returning (group 1, group 2); group 2 contains the whitespace matched by
its leading `\s*`. -/
def matchVocab : List Char → Option (List Char × List Char)
  | [] => none
  | c :: cs => if isJP c then vocabTry [c] cs else none

/-- Effect of `line.split('　', 1)` (src/parsers.py line 28): parts before and
after the first full-width space, `none` when the separator is absent. -/
def splitFirstFW : List Char → Option (List Char × List Char)
  | [] => none
  | c :: cs =>
    if c = '　' then some ([], cs)
    else (splitFirstFW cs).map (fun p => (c :: p.1, p.2))

/-- Scan for the first `,` or `、` (src/parsers.py lines 57-63), returning
the text after it. -/
def findComma : List Char → Option (List Char)
  | [] => none
  | c :: cs => if c = ',' || c = '、' then some cs else findComma cs

/-- Back-text computation of the vocabulary rule applied to the stripped
`potential_back_text` (src/parsers.py lines 53-90): if the first comma is
followed by Japanese text the whole text is kept, otherwise characters
are accumulated up to the first Japanese character and stripped. -/
def vocabBack (pbt : List Char) : List Char :=
  match findComma pbt with
  | some after =>
    if after.any isJP then pbt
    else pstrip (pbt.takeWhile (fun c => !(isJP c)))
  | none => pstrip (pbt.takeWhile (fun c => !(isJP c)))

/-- Constant `config.PASSIVE_KANJI_TAG` (src/config.py line 12). -/
def PASSIVE_KANJI_TAG : String := "Kanji"

/-- Constant `config.MODEL_NAME` (src/config.py line 5). -/
def MODEL_NAME : String := "Basic"

/-- Constant `config.PASSIVE_DECK_NAME` (src/config.py line 10). -/
def PASSIVE_DECK_NAME : String := "Japanese::Passive"

/-- Constant `config.ACTIVE_DECK_NAME` (src/config.py line 15). -/
def ACTIVE_DECK_NAME : String := "Japanese::Active"

/-- Vocabulary-rule step of `parse_passive_line` (src/parsers.py lines
42-105) on the stripped line: group 1, stripped, is the front,
`vocabBack` of the stripped group 2 is the back, and an empty computed
back makes the line unparsable. -/
def passiveVocabStep (s : List Char) : Option (String × String × Option String) :=
  match matchVocab s with
  | none => none
  | some (g1, g2) =>
    if vocabBack (pstrip g2) ≠ [] then
      some (String.mk (pstrip g1), String.mk (vocabBack (pstrip g2)), none)
    else none

/-- Core of `parse_passive_line` of src/parsers.py on the already
stripped-and-cleaned line. -/
def parsePassiveCore (s : List Char) : Option (String × String × Option String) :=
  if s = [] then none
  else
    match matchKanjiFormat s with
    | some (g1, g2) =>
      some (String.mk (pstrip g1), String.mk (pstrip g2), some PASSIVE_KANJI_TAG)
    | none =>
      match splitFirstFW s with
      | some (a, b) =>
        if pstrip a ≠ [] ∧ pstrip b ≠ [] then
          some (String.mk (pstrip a), String.mk (pstrip b), none)
        else passiveVocabStep s
      | none => passiveVocabStep s

/-- Function `parse_passive_line` of src/parsers.py.  `none` stands for the
`(None, None, None)` return; `some (front, back, tag)` carries the
optional card-type tag.  The zero-width-space removal and the strip are
lines 15-17 of src/parsers.py. -/
def parse_passive_line (line : String) : Option (String × String × Option String) :=
  parsePassiveCore (pstrip (removeZWSP line.data))

/-- Greedy `.+` of `^(\(.+\))\s*(.+)$` after the opening parenthesis and
its first forced character: extend the middle first (greedy); once no
longer match exists, try the current character as the closing `)`. -/
def p1Try (acc : List Char) : List Char → Option (List Char × List Char)
  | [] => none
  | c :: cs =>
    if c = '\n' then none
    else
      match p1Try (acc ++ [c]) cs with
      | some r => some r
      | none =>
        if c = ')' then
          match wsStarDotPlus cs with
          | some g2 => some ('(' :: acc ++ [')'], g2)
          | none => none
        else none

/-- Matcher for `re.match(r'^(\(.+\))\s*(.+)$', line)` (src/parsers.py line 121). -/
def matchActiveP1 : List Char → Option (List Char × List Char)
  | c0 :: c1 :: rest => if c0 = '(' && c1 != '\n' then p1Try [c1] rest else none
  | _ => none

/-- Whether `\(.+\)$` (greedy `.+`) matches the whole remaining text:
`$` forces the closing `)` to be the final character, so the text must be
`(` followed by a nonempty newline-free middle and a final `)`. -/
def p2ParenOk (t : List Char) : Bool :=
  match t with
  | c :: u =>
    (c == '(') && decide (2 ≤ u.length) && (u.getLast? == some ')') &&
      u.dropLast.all (fun d => d != '\n')
  | [] => false

/-- Matcher for `\s*(\(.+\))$` with greedy, backtracking `\s*`, returning
group 2 (the parenthesized tail). -/
def p2WsParen : List Char → Option (List Char)
  | [] => none
  | c :: cs =>
    if isPySpace c then
      match p2WsParen cs with
      | some g => some g
      | none => if p2ParenOk (c :: cs) then some (c :: cs) else none
    else
      if p2ParenOk (c :: cs) then some (c :: cs) else none

/-- Lazy `(.+?)` of `^(.+?)\s*(\(.+\))$`: the rest of the pattern is tried
before group 1 is extended (lazy: shortest group 1 first);
`.` does not match a newline.  The case split on the optional result of
`p2WsParen` is written with `Option.elim`. -/
def p2Try (g1 : List Char) : List Char → Option (List Char × List Char)
  | [] => none
  | c :: cs =>
    (p2WsParen (c :: cs)).elim
      (if c = '\n' then none else p2Try (g1 ++ [c]) cs)
      (fun g2 => some (g1, g2))

/-- Matcher for `re.match(r'^(.+?)\s*(\(.+\))$', line)` (src/parsers.py line 128). -/
def matchActiveP2 : List Char → Option (List Char × List Char)
  | [] => none
  | c :: cs => if c = '\n' then none else p2Try [c] cs

/-- Core of `parse_active_line` of src/parsers.py on the already
stripped-and-cleaned line. -/
def parseActiveCore (s : List Char) : Option (String × String × Option String) :=
  if s = [] then none
  else
    match matchActiveP1 s with
    | some (g1, g2) => some (String.mk (pstrip g1), String.mk (pstrip g2), none)
    | none =>
      match matchActiveP2 s with
      | some (g1, g2) => some (String.mk (pstrip g2), String.mk (pstrip g1), none)
      | none => none

/-- Function `parse_active_line` of src/parsers.py.  In the second pattern the
groups are swapped so that the parenthesized span becomes the front.
The zero-width-space removal and the strip are lines 116-118 of
src/parsers.py. -/
def parse_active_line (line : String) : Option (String × String × Option String) :=
  parseActiveCore (pstrip (removeZWSP line.data))

/-! ## Import worker (src/main_gui.py) -/

/-- A card produced by the parsing loop of `_import_worker`
(src/main_gui.py lines 137-144). -/
structure ParsedCard where
  front : String
  back : String
  tags : List String
  line : String
deriving DecidableEq, Repr

/-- The store-side information kept for an existing note:
`noteId` and `info['fields']['Back']['value']`. -/
structure ExistingInfo where
  noteId : Nat
  backValue : String
deriving DecidableEq, Repr

/-- An entry of `skipped_cards` (src/main_gui.py lines 166-180):
`note_id` is `some` for a duplicate found in the store and `none` for a
duplicate within the input batch. -/
structure SkippedCard where
  front : String
  back_new : String
  note_id : Option Nat
  back_old : String
deriving DecidableEq, Repr

/-- A note staged for the bulk `addNotes` call
(src/main_gui.py lines 185-189); the `fields` dict is flattened. -/
structure Note where
  deckName : String
  modelName : String
  front : String
  back : String
  tags : List String
deriving DecidableEq, Repr

/-- An entry of `failed_cards` (src/main_gui.py lines 217-218, 225-228). -/
structure FailedCard where
  front : String
  back : String
  line : String
deriving DecidableEq, Repr

/-- The `counts` dictionary (src/main_gui.py line 201). -/
structure Counts where
  added : Nat
  skipped : Nat
  failed : Nat
  unparsable : Nat
deriving DecidableEq, Repr

/-- A message put on the import queue by `_import_worker`
(only the run-level messages; widget destruction is a different producer). -/
inductive Event where
  | progress (value : Nat) (text : String)
  | complete (counts : Counts) (skipped : List SkippedCard)
      (failed : List FailedCard) (unparsable : List String)
  | error (message : String)
deriving DecidableEq, Repr

/-- Whether an event is a progress update. -/
def Event.isProgress : Event → Bool
  | .progress _ _ => true
  | _ => false

/-- Whether an event is terminal (`complete` or `error`). -/
def Event.isTerminal : Event → Bool
  | .complete _ _ _ _ => true
  | .error _ => true
  | _ => false

/-- The response of a successful `addNotes` HTTP round trip: the decoded
JSON object with its `result` and `error` entries.  The outer `Option`
in the worker covers `add_notes_bulk` returning `None`. -/
structure AddResponse where
  result : Option (List (Option Nat))
  error : Option String
deriving DecidableEq, Repr

/-- Parsing loop of `_import_worker` (src/main_gui.py lines 132-144):
every line goes to the parsed list when the parser returns truthy front
and back, and to the unparsable list otherwise. -/
def classifyLines (parser : String → Option (String × String × Option String))
    (tagf : Option String → List String) : List String → List ParsedCard × List String
  | [] => ([], [])
  | l :: rest =>
    match parser l with
    | some (f, b, t) =>
      if f ≠ "" ∧ b ≠ "" then
        (⟨f, b, tagf t, pstripS l⟩ :: (classifyLines parser tagf rest).1,
          (classifyLines parser tagf rest).2)
      else ((classifyLines parser tagf rest).1, l :: (classifyLines parser tagf rest).2)
    | none => ((classifyLines parser tagf rest).1, l :: (classifyLines parser tagf rest).2)

/-- Reconciliation loop of `_import_worker` (src/main_gui.py lines
161-191): walks the parsed cards in order, keeping the set of fronts
already claimed for the bulk add, and produces
(skipped cards, notes to add, source lines for notes to add). -/
def reconcileLoop (existing : String → Option ExistingInfo) (deck : String) :
    List ParsedCard → List String → List SkippedCard × List Note × List String
  | [], _ => ([], [], [])
  | c :: rest, claimed =>
    match existing c.front with
    | some info =>
      (⟨c.front, c.back, some info.noteId, info.backValue⟩ ::
          (reconcileLoop existing deck rest claimed).1,
        (reconcileLoop existing deck rest claimed).2.1,
        (reconcileLoop existing deck rest claimed).2.2)
    | none =>
      if c.front ∈ claimed then
        (⟨c.front, c.back, none, "[Duplicate in this import session]"⟩ ::
            (reconcileLoop existing deck rest claimed).1,
          (reconcileLoop existing deck rest claimed).2.1,
          (reconcileLoop existing deck rest claimed).2.2)
      else
        ((reconcileLoop existing deck rest (c.front :: claimed)).1,
          ⟨deck, MODEL_NAME, c.front, c.back, c.tags⟩ ::
            (reconcileLoop existing deck rest (c.front :: claimed)).2.1,
          c.line :: (reconcileLoop existing deck rest (c.front :: claimed)).2.2)

/-- Count `sum(1 for r in results_list if r is not None)` (src/main_gui.py
line 205). -/
def countAdded (l : List (Option Nat)) : Nat := (l.filter Option.isSome).length

/-- Per-item failure loop of `_import_worker` (src/main_gui.py lines
209-218): walks the positional result list; a `None` entry indexes into
`notes_to_add` and `source_lines_for_notes_to_add`, which raises
`IndexError` (caught by the worker's `except`) when the result list is
longer than the staged lists.  Returns (failed count, failed cards). -/
def collectFailed : List (Option Nat) → List Note → List String →
    Except String (Nat × List FailedCard)
  | [], _, _ => .ok (0, [])
  | some _ :: rs, ns, ss => collectFailed rs ns.tail ss.tail
  | none :: _, [], _ => .error "IndexError: list index out of range"
  | none :: _, _ :: _, [] => .error "IndexError: list index out of range"
  | none :: rs, n :: ns, s :: ss =>
    match collectFailed rs ns ss with
    | .ok (k, cards) => .ok (k + 1, ⟨n.front, n.back, s⟩ :: cards)
    | .error e => .error e

/-- The `elif notes_to_add and not (add_results and add_results.get("result"))`
accounting of `_import_worker` (src/main_gui.py lines 220-228): with staged
notes and no usable positional result, every staged record is a failed
write and enters the failed-cards detail; with nothing staged the counts
stay zero. -/
def fallbackCounts (notes : List Note) (srcs : List String) :
    Nat × Nat × List FailedCard :=
  if notes ≠ [] then
    (0, notes.length, (notes.zip srcs).map (fun p => ⟨p.1.front, p.1.back, p.2⟩))
  else (0, 0, [])

/-- Final accounting of `_import_worker` (src/main_gui.py lines 201-228):
from the bulk-add response compute (added, failed, failed cards).  The
`add_results and add_results.get("result")` truthiness test is the nested
match plus the nonemptiness test; its positional branch can raise
`IndexError` (modelled by `Except.error`), and all falsy branches go
through `fallbackCounts`. -/
def finishCounts (notes : List Note) (srcs : List String)
    (resp : Option AddResponse) : Except String (Nat × Nat × List FailedCard) :=
  match resp with
  | some rr =>
    match rr.result with
    | some l =>
      if l ≠ [] then
        match collectFailed l notes srcs with
        | .ok fk => .ok (countAdded l, fk.1, fk.2)
        | .error e => .error e
      else .ok (fallbackCounts notes srcs)
    | none => .ok (fallbackCounts notes srcs)
  | none => .ok (fallbackCounts notes srcs)

/-- Worker `_import_worker` (src/main_gui.py lines 119-238) as a function from
the behavior of the three store round trips to the list of queue events
of the run.  `Except.error` in an oracle models an exception raised by
that call, which the worker's outer `except` turns into an error event;
`ensure_deck_exists`, the duplicate lookup and the bulk add are the
store interactions, in program order.  `add_notes_bulk` returns `None`
without any request when nothing is staged (src/anki_utils.py lines
92-93). -/
def importWorker (edeck : Except String Bool)
    (einfo : String → List String → Except String (String → Option ExistingInfo))
    (eadd : List Note → Except String (Option AddResponse))
    (deck_name : String)
    (parser : String → Option (String × String × Option String))
    (tagf : Option String → List String) (lines : List String) : List Event :=
  let p5 := Event.progress 5 "Checking deck..."
  match edeck with
  | .error e => [p5, .error ("A critical error occurred: " ++ e ++ "\nCheck logs.txt for details.")]
  | .ok deckOk =>
    if deckOk = false then [p5, .error ("Could not create/find deck: " ++ deck_name)]
    else
    let p15 := Event.progress 15 ("Parsing " ++ toString lines.length ++ " lines...")
    let pu := classifyLines parser tagf lines
    let parsed := pu.1
    let unparsable := pu.2
    let p50 := Event.progress 50
      ("Checking " ++ toString parsed.length ++ " for duplicates...")
    match einfo deck_name (parsed.map (fun c => c.front)) with
    | .error e =>
      [p5, p15, p50, .error ("A critical error occurred: " ++ e ++ "\nCheck logs.txt for details.")]
    | .ok emap =>
      let r := reconcileLoop emap deck_name parsed []
      let skipped := r.1
      let notes := r.2.1
      let srcs := r.2.2
      let p65 := Event.progress 65
        ("Adding " ++ toString notes.length ++ " new cards...")
      match (if notes.isEmpty then Except.ok none else eadd notes) with
      | .error e =>
        [p5, p15, p50, p65,
          .error ("A critical error occurred: " ++ e ++ "\nCheck logs.txt for details.")]
      | .ok resp =>
        let p95 := Event.progress 95 "Finalizing..."
        match finishCounts notes srcs resp with
        | .error e =>
          [p5, p15, p50, p65, p95,
            .error ("A critical error occurred: " ++ e ++ "\nCheck logs.txt for details.")]
        | .ok afc =>
          [p5, p15, p50, p65, p95,
            .complete ⟨afc.1, skipped.length, afc.2.1, unparsable.length⟩
              skipped afc.2.2 unparsable]

/-- Tag rule of the Passive deck configuration (src/config.py line 26). -/
def passiveTagRule (t : Option String) : List String :=
  if t = some PASSIVE_KANJI_TAG then [PASSIVE_KANJI_TAG] else []

/-- Tag rule of the Active deck configuration (src/config.py line 32). -/
def activeTagRule (_ : Option String) : List String := []

/-! ## AnkiConnect helpers (src/anki_utils.py) -/

/-- Python `'"'.replace('"', '\\"')` on the characters of a front text
(src/anki_utils.py line 50): every double quote becomes backslash
double-quote. -/
def escQ : List Char → List Char
  | [] => []
  | c :: cs => if c = '"' then '\\' :: '"' :: escQ cs else c :: escQ cs

/-- Quote escaping on a `String`. -/
def escapeQuotes (s : String) : String := String.mk (escQ s.data)

/-- Query-building loop of `get_info_for_existing_notes`
(src/anki_utils.py lines 52-53): append one ` or "Front:..."` term per
remaining escaped front. -/
def queryLoop (q : String) : List String → String
  | [] => q
  | f :: rest => queryLoop (q ++ " or \"Front:" ++ f ++ "\"") rest

/-- The `findNotes` query string composed by `get_info_for_existing_notes`
(src/anki_utils.py lines 41-56); `none` when the function returns early
because `front_texts` is empty.  The `deck_name` parameter is accepted,
as in the source, but takes no part in the query. -/
def get_info_query (deck_name : String) (front_texts : List String) : Option String :=
  match front_texts.map escapeQuotes with
  | [] => none
  | e0 :: rest => some (queryLoop ("(\"Front:" ++ e0 ++ "\"") rest ++ ")")

/-- Python `sep.join(parts)`. -/
def pyJoin (sep : String) : List String → String
  | [] => ""
  | [x] => x
  | x :: y :: rest => x ++ sep ++ pyJoin sep (y :: rest)

/-- Modelled from the spec: the query shape required by the specification,
"parenthesized disjunction of `"Front:<escaped front>"` terms, quotes in
fronts escaped as `\"`", joined by ` or `. -/
def specQuery (fronts : List String) : String :=
  "(" ++ pyJoin " or " (fronts.map (fun f => "\"Front:" ++ escapeQuotes f ++ "\"")) ++ ")"

/-- One AnkiConnect request issued by the resolution helpers. -/
inductive AnkiAction where
  | updateNoteFields (noteId : Nat) (fields : List (String × String))
  | findCards (query : String)
  | unsuspend (cards : List Nat)
  | forgetCards (cards : List Nat)
deriving DecidableEq, Repr

/-- Request trace of `reset_cards` (src/anki_utils.py lines 123-142),
given the response of the `findCards` request: outer `none` models a
failed request, inner result `none` or `[]` a falsy result; in both
cases the function warns and stops; otherwise it unsuspends and then
forgets the found cards. -/
def reset_cards_trace (note_ids : List Nat)
    (findResp : Option (Option (List Nat))) : List AnkiAction :=
  if note_ids = [] then []
  else
    AnkiAction.findCards (pyJoin " or " (note_ids.map (fun nid => "nid:" ++ toString nid))) ::
    match findResp with
    | some (some (c :: cs)) => [AnkiAction.unsuspend (c :: cs), AnkiAction.forgetCards (c :: cs)]
    | _ => []

/-- Request trace of the `on_append` action (src/main_gui.py lines
436-439): write the concatenated back with the `<br><hr>` separator,
then reset the note's cards. -/
def on_append_trace (note_id : Nat) (back_old back_new : String)
    (findResp : Option (Option (List Nat))) : List AnkiAction :=
  AnkiAction.updateNoteFields note_id [("Back", back_old ++ "<br><hr>" ++ back_new)] ::
  reset_cards_trace [note_id] findResp

/-! ## Sanity checks of the embedded classifiers against the behavior of src/parsers.py -/

example : parse_passive_line "(摯) し sincerity, admonish" =
    some ("(摯)", "し sincerity, admonish", some "Kanji") := by decide

example : parse_passive_line "ばらまきspending (money) recklessly" =
    some ("ばらまき", "spending (money) recklessly", none) := by decide

example : parse_passive_line "  ばらまき   spending (money) recklessly  " =
    some ("ばらまき", "spending (money) recklessly", none) := by decide

example : parse_passive_line "はい、そうです yes, that's right" =
    some ("はい、そうです", "yes, that's right", none) := by decide

example : parse_passive_line "あいうえお" = none := by decide

example : parse_passive_line "。「」" = none := by decide

example : parse_passive_line "(摯)" = none := by decide

example : parse_passive_line "" = none := by decide

example : parse_passive_line "This is a line that should not match" = none := by decide

example : parse_passive_line "前　後ろ" = some ("前", "後ろ", none) := by decide

example : parse_active_line "(to spend money recklessly) ばらまき" =
    some ("(to spend money recklessly)", "ばらまき", none) := by decide

example : parse_active_line "ばらまき (to spend money recklessly)" =
    some ("(to spend money recklessly)", "ばらまき", none) := by decide

example : parse_active_line "(spending (money) recklessly) ばらまき" =
    some ("(spending (money) recklessly)", "ばらまき", none) := by decide

example : parse_active_line "some text (in the middle) more text" = none := by decide

example : parse_active_line "(just this)" = none := by decide

example : parse_active_line "a simple phrase" = none := by decide

example : matchKanjiFormat "(a(b)c) rest".data = some ("(a(b)".data, "c) rest".data) := by decide

example : matchKanjiFormat "()()x".data = some ("()()".data, "x".data) := by decide

example : matchKanjiFormat "(a) )".data = some ("(a)".data, ")".data) := by decide

example : matchKanjiFormat "(ab".data = none := by decide

example : matchVocab "あ  !x".data = some ("あ".data, "  !x".data) := by decide

example : matchVocab "あxあy".data = some ("あ".data, "xあy".data) := by decide

example : matchVocab "あ、x".data = some ("あ、".data, "x".data) := by decide

example : matchActiveP1 "(a)b(c)d".data = some ("(a)b(c)".data, "d".data) := by decide

example : matchActiveP1 "(a))b".data = some ("(a))".data, "b".data) := by decide

example : matchActiveP2 "a(b)(c)".data = some ("a".data, "(b)(c)".data) := by decide

example : matchActiveP2 "a (b) (c)".data = some ("a".data, "(b) (c)".data) := by decide

example : matchActiveP2 "a()".data = none := by decide

example : matchActiveP2 "a((b))".data = some ("a".data, "((b))".data) := by decide

/-! ## Lemmas about stripping -/

theorem mem_of_mem_dropWhile {p : Char → Bool} {l : List Char} {c : Char}
    (h : c ∈ l.dropWhile p) : c ∈ l :=
  (List.dropWhile_suffix p).subset h

theorem mem_dropWhile_of_mem {p : Char → Bool} {l : List Char} {c : Char}
    (hm : c ∈ l) (hp : p c = false) : c ∈ l.dropWhile p := by
  have h := List.takeWhile_append_dropWhile p (l := l)
  rw [← h] at hm
  rcases List.mem_append.mp hm with h1 | h2
  · have := List.mem_takeWhile_imp h1
    simp [hp] at this
  · exact h2

theorem mem_dropTrailingWS_of_mem {l : List Char} {c : Char}
    (hm : c ∈ l) (hp : isPySpace c = false) : c ∈ dropTrailingWS l := by
  unfold dropTrailingWS
  rw [List.mem_reverse]
  exact mem_dropWhile_of_mem (List.mem_reverse.mpr hm) hp

theorem mem_of_mem_dropTrailingWS {l : List Char} {c : Char}
    (h : c ∈ dropTrailingWS l) : c ∈ l := by
  unfold dropTrailingWS at h
  rw [List.mem_reverse] at h
  exact List.mem_reverse.mp (mem_of_mem_dropWhile h)

theorem pstrip_ne_nil_of_mem {l : List Char} {c : Char}
    (hm : c ∈ l) (hp : isPySpace c = false) : pstrip l ≠ [] := by
  unfold pstrip
  exact List.ne_nil_of_mem
    (mem_dropTrailingWS_of_mem (mem_dropWhile_of_mem hm hp) hp)

theorem mem_of_mem_pstrip {l : List Char} {c : Char}
    (h : c ∈ pstrip l) : c ∈ l :=
  mem_of_mem_dropWhile (mem_of_mem_dropTrailingWS h)

theorem dropWhile_head_not {p : Char → Bool} {l cs : List Char} {c : Char}
    (h : l.dropWhile p = c :: cs) : p c = false := by
  induction l with
  | nil => simp at h
  | cons a l ih =>
    rw [List.dropWhile_cons] at h
    by_cases hp : p a
    · rw [if_pos hp] at h; exact ih h
    · rw [if_neg hp] at h
      cases h
      exact Bool.not_eq_true _ ▸ (by simpa using hp)

theorem dropTrailingWS_prefix (l : List Char) :
    ∃ t, l = dropTrailingWS l ++ t := by
  obtain ⟨pre, hpre⟩ := List.dropWhile_suffix (l := l.reverse) isPySpace
  refine ⟨pre.reverse, ?_⟩
  unfold dropTrailingWS
  calc l = l.reverse.reverse := by rw [List.reverse_reverse]
  _ = (pre ++ l.reverse.dropWhile isPySpace).reverse := by rw [hpre]
  _ = (l.reverse.dropWhile isPySpace).reverse ++ pre.reverse := by
      rw [List.reverse_append]

theorem head_pstrip_not_space {l cs : List Char} {c : Char}
    (h : pstrip l = c :: cs) : isPySpace c = false := by
  unfold pstrip at h
  obtain ⟨t, ht⟩ := dropTrailingWS_prefix (l.dropWhile isPySpace)
  rw [h] at ht
  exact dropWhile_head_not ht

theorem getLast?_pstrip_not_space {l : List Char} {c : Char}
    (h : (pstrip l).getLast? = some c) : isPySpace c = false := by
  unfold pstrip dropTrailingWS at h
  rw [List.getLast?_reverse] at h
  rcases hd : (l.dropWhile isPySpace).reverse.dropWhile isPySpace with _ | ⟨a, as⟩
  · rw [hd] at h; simp at h
  · rw [hd] at h
    simp only [List.head?_cons, Option.some_inj] at h
    subst h
    exact dropWhile_head_not hd

theorem dropTrailingWS_eq_self {l : List Char}
    (h : ∀ c, l.getLast? = some c → isPySpace c = false) :
    dropTrailingWS l = l := by
  unfold dropTrailingWS
  rcases hr : l.reverse with _ | ⟨a, as⟩
  · simp_all
  · have ha : l.getLast? = some a := by
      rw [← List.head?_reverse, hr, List.head?_cons]
    rw [List.dropWhile_cons, if_neg (by simp [h a ha])]
    rw [← hr, List.reverse_reverse]

theorem pstrip_eq_self {l : List Char}
    (h1 : ∀ c, l.head? = some c → isPySpace c = false)
    (h2 : ∀ c, l.getLast? = some c → isPySpace c = false) :
    pstrip l = l := by
  unfold pstrip
  rcases hl : l with _ | ⟨a, as⟩
  · simp [dropTrailingWS]
  · rw [List.dropWhile_cons, if_neg (by simp [h1 a (by rw [hl, List.head?_cons])])]
    rw [← hl]
    exact dropTrailingWS_eq_self (hl ▸ h2)

theorem pstrip_idem (l : List Char) : pstrip (pstrip l) = pstrip l := by
  rcases hp : pstrip l with _ | ⟨a, as⟩
  · simp [pstrip, dropTrailingWS]
  · rw [← hp]
    refine pstrip_eq_self ?_ ?_
    · intro c hc
      rw [hp, List.head?_cons, Option.some_inj] at hc
      subst hc
      exact head_pstrip_not_space hp
    · intro c hc
      exact getLast?_pstrip_not_space hc

theorem pstrip_append_ws {x w : List Char}
    (hw : ∀ c ∈ w, isPySpace c = true) : pstrip (x ++ w) = pstrip x := by
  unfold pstrip dropTrailingWS
  rw [List.dropWhile_append]
  by_cases hx : (x.dropWhile isPySpace).isEmpty
  · rw [if_pos hx]
    have hwd : w.dropWhile isPySpace = [] := List.dropWhile_eq_nil_iff.mpr hw
    rw [hwd]
    rw [List.isEmpty_iff] at hx
    rw [hx]
  · rw [if_neg hx]
    rw [List.reverse_append, List.dropWhile_append]
    have hwr : w.reverse.dropWhile isPySpace = [] :=
      List.dropWhile_eq_nil_iff.mpr (by simpa using hw)
    rw [hwr]
    simp

theorem removeZWSP_no_zwsp (l : List Char) : ∀ c ∈ removeZWSP l, (c != '​') = true := by
  intro c hc
  unfold removeZWSP at hc
  exact (List.mem_filter.mp hc).2

theorem removeZWSP_eq_self {l : List Char}
    (h : ∀ c ∈ l, (c != '​') = true) : removeZWSP l = l :=
  List.filter_eq_self.mpr h

/-! ## Shape lemmas about the matchers -/

theorem wsStarDotPlus_spec : ∀ {t g : List Char}, wsStarDotPlus t = some g →
    g ≠ [] ∧ ∃ p, t = p ++ g := by
  intro t
  induction t with
  | nil => intro g h; simp [wsStarDotPlus] at h
  | cons c cs ih =>
    intro g h
    simp only [wsStarDotPlus] at h
    split at h
    · split at h
      next g' hw =>
        cases h
        obtain ⟨hne, p, hp⟩ := ih hw
        exact ⟨hne, c :: p, by rw [List.cons_append, ← hp]⟩
      next hw =>
        split at h
        · cases h; exact ⟨by simp, [], rfl⟩
        · cases h
    · split at h
      · cases h; exact ⟨by simp, [], rfl⟩
      · cases h

theorem kanjiClose_spec : ∀ {t mid g1 g2 : List Char},
    kanjiClose mid t = some (g1, g2) →
    (∃ m, g1 = '(' :: m ++ [')']) ∧ g2 ≠ [] ∧ ∃ p, t = p ++ g2 := by
  intro t
  induction t with
  | nil => intro mid g1 g2 h; simp [kanjiClose] at h
  | cons c cs ih =>
    intro mid g1 g2 h
    simp only [kanjiClose] at h
    split at h
    · split at h
      next g2' hw =>
        cases h
        obtain ⟨hne, p, hp⟩ := wsStarDotPlus_spec hw
        exact ⟨⟨mid, rfl⟩, hne, c :: p, by rw [List.cons_append, ← hp]⟩
      next hw =>
        obtain ⟨hm, hne, p, hp⟩ := ih h
        exact ⟨hm, hne, c :: p, by rw [List.cons_append, hp]⟩
    · split at h
      · cases h
      · obtain ⟨hm, hne, p, hp⟩ := ih h
        exact ⟨hm, hne, c :: p, by rw [List.cons_append, hp]⟩

theorem matchKanjiFormat_spec {s g1 g2 : List Char}
    (h : matchKanjiFormat s = some (g1, g2)) :
    (∃ m, g1 = '(' :: m ++ [')']) ∧ g2 ≠ [] ∧ ∃ p, s = p ++ g2 := by
  rcases s with _ | ⟨c0, _ | ⟨c1, rest⟩⟩
  · simp [matchKanjiFormat] at h
  · simp [matchKanjiFormat] at h
  · simp only [matchKanjiFormat] at h
    split at h
    · obtain ⟨hm, hne, p, hp⟩ := kanjiClose_spec h
      exact ⟨hm, hne, c0 :: c1 :: p, by rw [hp]; rfl⟩
    · cases h

theorem p1Try_spec : ∀ {t acc g1 g2 : List Char},
    p1Try acc t = some (g1, g2) →
    (∃ m, g1 = '(' :: m ++ [')']) ∧ g2 ≠ [] ∧ ∃ p, t = p ++ g2 := by
  intro t
  induction t with
  | nil => intro acc g1 g2 h; simp [p1Try] at h
  | cons c cs ih =>
    intro acc g1 g2 h
    simp only [p1Try] at h
    split at h
    · cases h
    · split at h
      next r hr =>
        cases h
        obtain ⟨hm, hne, p, hp⟩ := ih hr
        exact ⟨hm, hne, c :: p, by rw [List.cons_append, hp]⟩
      next hr =>
        split at h
        · split at h
          next g2' hw =>
            cases h
            obtain ⟨hne, p, hp⟩ := wsStarDotPlus_spec hw
            exact ⟨⟨acc, rfl⟩, hne, c :: p, by rw [List.cons_append, ← hp]⟩
          next hw => cases h
        · cases h

theorem matchActiveP1_spec {s g1 g2 : List Char}
    (h : matchActiveP1 s = some (g1, g2)) :
    (∃ m, g1 = '(' :: m ++ [')']) ∧ g2 ≠ [] ∧ ∃ p, s = p ++ g2 := by
  rcases s with _ | ⟨c0, _ | ⟨c1, rest⟩⟩
  · simp [matchActiveP1] at h
  · simp [matchActiveP1] at h
  · simp only [matchActiveP1] at h
    split at h
    · obtain ⟨hm, hne, p, hp⟩ := p1Try_spec h
      exact ⟨hm, hne, c0 :: c1 :: p, by rw [hp]; rfl⟩
    · cases h

theorem p2ParenOk_shape {t : List Char} (h : p2ParenOk t = true) :
    ∃ u, t = '(' :: u := by
  rcases t with _ | ⟨c, u⟩
  · simp [p2ParenOk] at h
  · simp only [p2ParenOk, Bool.and_eq_true, beq_iff_eq] at h
    exact ⟨u, by rw [h.1.1.1]⟩

theorem p2WsParen_spec : ∀ {t g : List Char}, p2WsParen t = some g →
    (∃ u, g = '(' :: u) ∧ ∃ p, t = p ++ g := by
  intro t
  induction t with
  | nil => intro g h; simp [p2WsParen] at h
  | cons c cs ih =>
    intro g h
    simp only [p2WsParen] at h
    split at h
    · split at h
      next g' hw =>
        cases h
        obtain ⟨hu, p, hp⟩ := ih hw
        exact ⟨hu, c :: p, by rw [List.cons_append, ← hp]⟩
      next hw =>
        split at h
        next hok => cases h; exact ⟨p2ParenOk_shape hok, [], rfl⟩
        · cases h
    · split at h
      next hok => cases h; exact ⟨p2ParenOk_shape hok, [], rfl⟩
      · cases h

theorem p2Try_spec : ∀ {t acc g1 g2 : List Char},
    p2Try acc t = some (g1, g2) →
    (∃ ext, g1 = acc ++ ext) ∧ ∃ u, g2 = '(' :: u := by
  intro t
  induction t with
  | nil => intro acc g1 g2 h; simp [p2Try] at h
  | cons c cs ih =>
    intro acc g1 g2 h
    rcases hw : p2WsParen (c :: cs) with _ | g'
    · rw [p2Try, hw] at h
      simp only [Option.elim] at h
      split at h
      · cases h
      · obtain ⟨⟨ext, hext⟩, hu⟩ := ih h
        exact ⟨⟨c :: ext, by rw [hext]; simp⟩, hu⟩
    · rw [p2Try, hw] at h
      simp only [Option.elim] at h
      cases h
      exact ⟨⟨[], by simp⟩, (p2WsParen_spec hw).1⟩

theorem matchActiveP2_spec {s g1 g2 : List Char}
    (h : matchActiveP2 s = some (g1, g2)) :
    (∃ c ext, g1 = c :: ext ∧ s.head? = some c) ∧ ∃ u, g2 = '(' :: u := by
  rcases s with _ | ⟨c, cs⟩
  · simp [matchActiveP2] at h
  · simp only [matchActiveP2] at h
    split at h
    · cases h
    · obtain ⟨⟨ext, hext⟩, hu⟩ := p2Try_spec h
      exact ⟨⟨c, ext, by simpa using hext, rfl⟩, hu⟩

theorem vocabTry_spec : ∀ {t acc g1 g2 : List Char},
    vocabTry acc t = some (g1, g2) → ∃ ext, g1 = acc ++ ext := by
  intro t
  induction t with
  | nil => intro acc g1 g2 h; simp [vocabTry] at h
  | cons c cs ih =>
    intro acc g1 g2 h
    simp only [vocabTry] at h
    split at h
    · split at h
      next r hr =>
        cases h
        obtain ⟨ext, hext⟩ := ih hr
        exact ⟨c :: ext, by rw [hext]; simp⟩
      next hr =>
        split at h
        · cases h; exact ⟨[], by simp⟩
        · cases h
    · split at h
      · cases h; exact ⟨[], by simp⟩
      · cases h

theorem matchVocab_spec {s g1 g2 : List Char}
    (h : matchVocab s = some (g1, g2)) :
    ∃ c ext, g1 = c :: ext ∧ s.head? = some c := by
  rcases s with _ | ⟨c, cs⟩
  · simp [matchVocab] at h
  · simp only [matchVocab] at h
    split at h
    · obtain ⟨ext, hext⟩ := vocabTry_spec h
      exact ⟨c, ext, by simpa using hext, rfl⟩
    · cases h

/-! ## Classified cards never have a blank side -/

theorem pstripS_mk_pstrip_ne {z : List Char} (h : pstrip z ≠ []) :
    pstripS (String.mk (pstrip z)) ≠ "" := by
  unfold pstripS
  intro he
  have hd := congrArg String.data he
  rw [show (String.mk (pstrip z)).data = pstrip z from rfl, pstrip_idem] at hd
  exact h (by simpa using hd)

theorem head?_pstrip_not_space {l : List Char} {c : Char}
    (h : (pstrip l).head? = some c) : isPySpace c = false := by
  rcases hp : pstrip l with _ | ⟨a, as⟩
  · rw [hp] at h; cases h
  · rw [hp] at h
    simp only [List.head?_cons, Option.some_inj] at h
    subst h
    exact head_pstrip_not_space hp

theorem pstrip_suffix_ne_nil {l0 g p : List Char}
    (hg : g ≠ []) (hsuf : pstrip l0 = p ++ g) : pstrip g ≠ [] := by
  rcases hgl : g.getLast? with _ | c
  · exact absurd (List.getLast?_eq_none_iff.mp hgl) hg
  · have hsl : (pstrip l0).getLast? = some c := by
      rw [hsuf, List.getLast?_append_of_ne_nil _ hg, hgl]
    exact pstrip_ne_nil_of_mem (List.mem_of_getLast?_eq_some hgl)
      (getLast?_pstrip_not_space hsl)

theorem pstrip_head_cons_ne_nil {l0 g ext : List Char} {c : Char}
    (hg : g = c :: ext) (hh : (pstrip l0).head? = some c) : pstrip g ≠ [] := by
  subst hg
  exact pstrip_ne_nil_of_mem (List.mem_cons_self c ext) (head?_pstrip_not_space hh)

theorem vocabBack_is_pstrip (g2 : List Char) :
    ∃ z, vocabBack (pstrip g2) = pstrip z := by
  unfold vocabBack
  split
  · split
    · exact ⟨g2, rfl⟩
    · exact ⟨_, rfl⟩
  · exact ⟨_, rfl⟩

theorem passiveVocabStep_sides {l0 : List Char} {f b : String} {t : Option String}
    (h : passiveVocabStep (pstrip l0) = some (f, b, t)) :
    pstripS f ≠ "" ∧ pstripS b ≠ "" := by
  unfold passiveVocabStep at h
  split at h
  · cases h
  next g1 g2 heq =>
    split at h
    next hne =>
      simp only [Option.some.injEq, Prod.mk.injEq] at h
      obtain ⟨hf, hb, _⟩ := h
      subst hf; subst hb
      constructor
      · obtain ⟨c, ext, hg1, hh⟩ := matchVocab_spec heq
        exact pstripS_mk_pstrip_ne (pstrip_head_cons_ne_nil hg1 hh)
      · obtain ⟨z, hz⟩ := vocabBack_is_pstrip g2
        rw [hz] at hne ⊢
        exact pstripS_mk_pstrip_ne hne
    · cases h

/-- C3: for every input line and for both profiles, a successful
classification yields a front and a back that are non-empty after
trimming whitespace. -/
theorem classified_card_sides_nonblank (line : String) :
    (∀ f b t, parse_passive_line line = some (f, b, t) →
      pstripS f ≠ "" ∧ pstripS b ≠ "") ∧
    (∀ f b t, parse_active_line line = some (f, b, t) →
      pstripS f ≠ "" ∧ pstripS b ≠ "") := by
  constructor
  · intro f b t h
    unfold parse_passive_line parsePassiveCore at h
    split at h
    · cases h
    · split at h
      next g1 g2 heq =>
        simp only [Option.some.injEq, Prod.mk.injEq] at h
        obtain ⟨hf, hb, _⟩ := h
        subst hf; subst hb
        obtain ⟨⟨m, hm⟩, hne, p, hp⟩ := matchKanjiFormat_spec heq
        constructor
        · have hmem : '(' ∈ g1 := by
            rw [hm]; exact List.mem_cons_self '(' (m ++ [')'])
          exact pstripS_mk_pstrip_ne (pstrip_ne_nil_of_mem hmem (by decide))
        · exact pstripS_mk_pstrip_ne (pstrip_suffix_ne_nil hne hp)
      next heq =>
        split at h
        next a bb hfw =>
          split at h
          next hcond =>
            simp only [Option.some.injEq, Prod.mk.injEq] at h
            obtain ⟨hf, hb, _⟩ := h
            subst hf; subst hb
            exact ⟨pstripS_mk_pstrip_ne hcond.1, pstripS_mk_pstrip_ne hcond.2⟩
          · exact passiveVocabStep_sides h
        next hfw => exact passiveVocabStep_sides h
  · intro f b t h
    unfold parse_active_line parseActiveCore at h
    split at h
    · cases h
    · split at h
      next g1 g2 heq =>
        simp only [Option.some.injEq, Prod.mk.injEq] at h
        obtain ⟨hf, hb, _⟩ := h
        subst hf; subst hb
        obtain ⟨⟨m, hm⟩, hne, p, hp⟩ := matchActiveP1_spec heq
        constructor
        · have hmem : '(' ∈ g1 := by
            rw [hm]; exact List.mem_cons_self '(' (m ++ [')'])
          exact pstripS_mk_pstrip_ne (pstrip_ne_nil_of_mem hmem (by decide))
        · exact pstripS_mk_pstrip_ne (pstrip_suffix_ne_nil hne hp)
      next heq =>
        split at h
        next g1 g2 heq2 =>
          simp only [Option.some.injEq, Prod.mk.injEq] at h
          obtain ⟨hf, hb, _⟩ := h
          subst hf; subst hb
          obtain ⟨⟨c, ext, hg1, hh⟩, u, hu⟩ := matchActiveP2_spec heq2
          constructor
          · have hmem : '(' ∈ g2 := by
              rw [hu]; exact List.mem_cons_self '(' u
            exact pstripS_mk_pstrip_ne (pstrip_ne_nil_of_mem hmem (by decide))
          · exact pstripS_mk_pstrip_ne (pstrip_head_cons_ne_nil hg1 hh)
        · cases h

/-- Witness for C3: the theorem applied to the classified Passive line
`"(a) b"`. -/
theorem classified_card_sides_nonblank_witness :
    pstripS "(a)" ≠ "" ∧ pstripS "b" ≠ "" :=
  (classified_card_sides_nonblank "(a) b").1 "(a)" "b" (some PASSIVE_KANJI_TAG)
    (by decide)

/-! ## Invariance under zero-width spaces and outer whitespace -/

/-- C10: classifying a line gives the same result as classifying the line
with every U+200B removed and outer whitespace stripped, for both
profiles, because both classifiers delete every U+200B and strip the
line before applying any rule. -/
theorem classify_zwsp_strip_invariant (line : String) :
    parse_passive_line line =
      parse_passive_line (pstripS (String.mk (removeZWSP line.data))) ∧
    parse_active_line line =
      parse_active_line (pstripS (String.mk (removeZWSP line.data))) := by
  have key : pstrip (removeZWSP (pstripS (String.mk (removeZWSP line.data))).data) =
      pstrip (removeZWSP line.data) := by
    have hdata : (pstripS (String.mk (removeZWSP line.data))).data =
        pstrip (removeZWSP line.data) := rfl
    rw [hdata,
      removeZWSP_eq_self (fun c hc => removeZWSP_no_zwsp line.data c (mem_of_mem_pstrip hc)),
      pstrip_idem]
  constructor
  · unfold parse_passive_line
    rw [key]
  · unfold parse_active_line
    rw [key]

/-! ## The pure-Japanese line -/

/-- C1 evaluation: on the pure-Japanese line `"あいうえお"` the Passive
classifier of src/parsers.py returns no card at all (the line is
unparsable): the vocabulary pattern requires the character after the
Japanese run to be non-Japanese, so no shortened run can match, contrary
to the spec and to the repository's own test
`test_vocab_card_multiple_front_chars_parses_correctly`. -/
theorem passive_pure_japanese_unparsable :
    parse_passive_line "あいうえお" = none := by decide

/-! ## The Active Japanese-then-phrase swap -/

theorem p2ParenOk_paren {m : List Char} (hm : m ≠ []) (hnl : ∀ c ∈ m, c ≠ '\n') :
    p2ParenOk ('(' :: (m ++ [')'])) = true := by
  have h1 : 2 ≤ (m ++ [')']).length := by
    have := List.length_pos.mpr hm
    rw [List.length_append]
    simp only [List.length_cons, List.length_nil]
    omega
  simp only [p2ParenOk]
  rw [List.getLast?_concat, List.dropLast_concat]
  simp only [Bool.and_eq_true, beq_self_eq_true, decide_eq_true_eq, List.all_eq_true,
    bne_iff_ne, true_and, and_true]
  exact ⟨h1, hnl⟩

theorem p2WsParen_ws_paren {w m : List Char} (hw : ∀ c ∈ w, isPySpace c = true)
    (hm : m ≠ []) (hnl : ∀ c ∈ m, c ≠ '\n') :
    p2WsParen (w ++ ('(' :: (m ++ [')']))) = some ('(' :: (m ++ [')'])) := by
  induction w with
  | nil =>
    rw [List.nil_append, p2WsParen]
    rw [if_neg (by decide : ¬ isPySpace '(' = true)]
    rw [if_pos (p2ParenOk_paren hm hnl)]
  | cons c w ih =>
    rw [List.cons_append, p2WsParen]
    rw [if_pos (hw c (List.mem_cons_self c w))]
    rw [ih (fun d hd => hw d (List.mem_cons_of_mem c hd))]

theorem p2WsParen_eq_dropWhile : ∀ {t g : List Char}, p2WsParen t = some g →
    g = t.dropWhile isPySpace ∧ p2ParenOk g = true := by
  intro t
  induction t with
  | nil => intro g h; simp [p2WsParen] at h
  | cons c cs ih =>
    intro g h
    simp only [p2WsParen] at h
    split at h
    next hc =>
      rw [List.dropWhile_cons, if_pos hc]
      split at h
      next g' hw =>
        cases h
        exact ih hw
      next hw =>
        split at h
        next hok =>
          exfalso
          obtain ⟨u, hu⟩ := p2ParenOk_shape hok
          have : c = '(' := by
            have := congrArg List.head? hu
            simpa using this
          rw [this] at hc
          exact absurd hc (by decide)
        · cases h
    next hc =>
      rw [List.dropWhile_cons, if_neg hc]
      split at h
      next hok => cases h; exact ⟨rfl, hok⟩
      · cases h

theorem p2Try_walk {m : List Char} (hm : m ≠ []) (hmnl : ∀ c ∈ m, c ≠ '\n') :
    ∀ (rest acc : List Char), '(' ∉ rest → (∀ c ∈ rest, c ≠ '\n') →
    ∃ x w, rest = x ++ w ∧ (∀ c ∈ w, isPySpace c = true) ∧
      p2Try acc (rest ++ ('(' :: (m ++ [')']))) =
        some (acc ++ x, '(' :: (m ++ [')'])) := by
  intro rest
  induction rest with
  | nil =>
    intro acc _ _
    refine ⟨[], [], rfl, by simp, ?_⟩
    rw [List.nil_append, p2Try]
    rw [show ('(' :: (m ++ [')'])) = [] ++ ('(' :: (m ++ [')'])) from rfl,
      p2WsParen_ws_paren (by simp) hm hmnl]
    simp [Option.elim]
  | cons c rest ih =>
    intro acc hnp hnl
    by_cases hws : ∀ d ∈ c :: rest, isPySpace d = true
    · refine ⟨[], c :: rest, rfl, hws, ?_⟩
      rw [List.cons_append, p2Try]
      rw [show (rest ++ ('(' :: (m ++ [')']))) = rest ++ ('(' :: (m ++ [')'])) from rfl]
      have hp : p2WsParen (c :: (rest ++ ('(' :: (m ++ [')'])))) =
          some ('(' :: (m ++ [')'])) := by
        rw [show (c :: (rest ++ ('(' :: (m ++ [')'])))) =
          ((c :: rest) ++ ('(' :: (m ++ [')']))) from rfl]
        exact p2WsParen_ws_paren hws hm hmnl
      rw [hp]
      simp [Option.elim]
    · have hnone : p2WsParen (c :: (rest ++ ('(' :: (m ++ [')'])))) = none := by
        rcases hq : p2WsParen (c :: (rest ++ ('(' :: (m ++ [')'])))) with _ | g
        · rfl
        · exfalso
          obtain ⟨hg, hok⟩ := p2WsParen_eq_dropWhile hq
          obtain ⟨u, hu⟩ := p2ParenOk_shape hok
          rw [show (c :: (rest ++ ('(' :: (m ++ [')'])))) =
            ((c :: rest) ++ ('(' :: (m ++ [')']))) from rfl] at hg
          rw [List.dropWhile_append] at hg
          by_cases he : ((c :: rest).dropWhile isPySpace).isEmpty
          · exact hws (List.dropWhile_eq_nil_iff.mp (List.isEmpty_iff.mp he))
          · rw [if_neg he] at hg
            rcases hd : (c :: rest).dropWhile isPySpace with _ | ⟨d, ds⟩
            · rw [hd] at he; simp at he
            · rw [hd] at hg
              rw [hu] at hg
              have hdpar : '(' = d := by
                have := congrArg List.head? hg
                simpa using this
              have hdm : d ∈ c :: rest :=
                mem_of_mem_dropWhile (hd ▸ List.mem_cons_self d ds)
              exact hnp (hdpar ▸ hdm)
      have hcnl : ¬ c = '\n' := hnl c (List.mem_cons_self c rest)
      rw [List.cons_append, p2Try, hnone]
      simp only [Option.elim]
      rw [if_neg hcnl]
      obtain ⟨x, w, hxw, hw, hres⟩ := ih (acc ++ [c])
        (fun hmem => hnp (List.mem_cons_of_mem c hmem))
        (fun d hd => hnl d (List.mem_cons_of_mem c hd))
      refine ⟨c :: x, w, by rw [List.cons_append, hxw], hw, ?_⟩
      rw [hres]
      simp

/-- C8: an Active-profile line of the form text-then-parenthesized-span,
where the text contains no `(` (so the phrase-then-Japanese rule cannot
fire), no newline and no U+200B, begins with a non-whitespace character
and is followed by a parenthesized span with nonempty newline-free
U+200B-free content, classifies with the span as the front and the
preceding text, stripped, as the back — swapped relative to source
order. -/
theorem active_japanese_then_phrase_swap
    (c0 : Char) (a' m : List Char)
    (h0ws : isPySpace c0 = false)
    (hnp : '(' ∉ c0 :: a') (hnl : ∀ c ∈ c0 :: a', c ≠ '\n')
    (hzw : ∀ c ∈ c0 :: a', c ≠ '​')
    (hm : m ≠ []) (hmnl : ∀ c ∈ m, c ≠ '\n') (hmzw : ∀ c ∈ m, c ≠ '​') :
    parse_active_line (String.mk ((c0 :: a') ++ ('(' :: (m ++ [')'])))) =
      some (String.mk ('(' :: (m ++ [')'])), String.mk (pstrip (c0 :: a')), none) := by
  have hs0 : (String.mk ((c0 :: a') ++ ('(' :: (m ++ [')'])))).data =
      (c0 :: a') ++ ('(' :: (m ++ [')'])) := rfl
  have hclean : removeZWSP ((c0 :: a') ++ ('(' :: (m ++ [')']))) =
      (c0 :: a') ++ ('(' :: (m ++ [')'])) := by
    refine removeZWSP_eq_self ?_
    intro c hc
    rcases List.mem_append.mp hc with h1 | h2
    · simpa using hzw c h1
    · rcases List.mem_cons.mp h2 with h3 | h4
      · subst h3; decide
      · rcases List.mem_append.mp h4 with h5 | h6
        · simpa using hmzw c h5
        · rcases List.mem_cons.mp h6 with h7 | h8
          · subst h7; decide
          · simp at h8
  have hstrip : pstrip ((c0 :: a') ++ ('(' :: (m ++ [')']))) =
      (c0 :: a') ++ ('(' :: (m ++ [')'])) := by
    refine pstrip_eq_self ?_ ?_
    · intro c hc
      simp only [List.cons_append, List.head?_cons, Option.some_inj] at hc
      subst hc
      exact h0ws
    · intro c hc
      rw [show ((c0 :: a') ++ ('(' :: (m ++ [')']))) =
        ((c0 :: a') ++ ('(' :: m)) ++ [')'] from by simp, List.getLast?_concat] at hc
      cases hc
      decide
  have hc0 : ¬ c0 = '(' := by
    intro h
    exact hnp (h ▸ List.mem_cons_self c0 a')
  have hp1 : matchActiveP1 ((c0 :: a') ++ ('(' :: (m ++ [')']))) = none := by
    rcases ha : a' ++ ('(' :: (m ++ [')'])) with _ | ⟨c1, rest⟩
    · exact absurd (congrArg List.length ha) (by simp)
    · rw [show ((c0 :: a') ++ ('(' :: (m ++ [')']))) = c0 :: (a' ++ ('(' :: (m ++ [')'])))
        from rfl, ha]
      simp [matchActiveP1, hc0]
  obtain ⟨x, w, hxw, hw, hres⟩ := p2Try_walk hm hmnl a' [c0]
    (fun hmem => hnp (List.mem_cons_of_mem c0 hmem))
    (fun d hd => hnl d (List.mem_cons_of_mem c0 hd))
  have hp2 : matchActiveP2 ((c0 :: a') ++ ('(' :: (m ++ [')']))) =
      some ([c0] ++ x, '(' :: (m ++ [')'])) := by
    rw [show ((c0 :: a') ++ ('(' :: (m ++ [')']))) = c0 :: (a' ++ ('(' :: (m ++ [')'])))
      from rfl, matchActiveP2]
    rw [if_neg (by simpa using hnl c0 (List.mem_cons_self c0 a'))]
    exact hres
  have hparen : pstrip ('(' :: (m ++ [')'])) = '(' :: (m ++ [')']) := by
    refine pstrip_eq_self ?_ ?_
    · intro c hc
      simp only [List.head?_cons, Option.some_inj] at hc
      subst hc; decide
    · intro c hc
      rw [show ('(' :: (m ++ [')'])) = ('(' :: m) ++ [')'] from by simp,
        List.getLast?_concat] at hc
      cases hc
      decide
  have hback : pstrip (c0 :: x) = pstrip (c0 :: a') := by
    rw [show (c0 :: a') = (c0 :: x) ++ w from by rw [hxw]; rfl]
    exact (pstrip_append_ws hw).symm
  unfold parse_active_line parseActiveCore
  rw [hs0, hclean, hstrip]
  rw [if_neg (by simp : ¬ ((c0 :: a') ++ ('(' :: (m ++ [')']))) = [])]
  rw [hp1, hp2]
  simp [hparen, hback]

/-- Witness for C8: the theorem applied to the spec's scenario
`"ばらまき (to spend money recklessly)"`. -/
theorem active_japanese_then_phrase_swap_witness :
    parse_active_line "ばらまき (to spend money recklessly)" =
      some ("(to spend money recklessly)", "ばらまき", none) := by
  have h := active_japanese_then_phrase_swap 'ば' "らまき ".data
    "to spend money recklessly".data (by decide) (by decide) (by decide)
    (by decide) (by decide) (by decide) (by decide)
  exact (by decide : (String.mk (('ば' :: "らまき ".data) ++
      ('(' :: ("to spend money recklessly".data ++ [')'])))) =
      "ばらまき (to spend money recklessly)") ▸
    (by decide : (String.mk ('(' :: ("to spend money recklessly".data ++ [')']))) =
      "(to spend money recklessly)") ▸
    (by decide : (String.mk (pstrip ('ば' :: "らまき ".data))) = "ばらまき") ▸ h

/-! ## Worker counting lemmas -/

theorem classifyLines_length (parser : String → Option (String × String × Option String))
    (tagf : Option String → List String) : ∀ lines : List String,
    (classifyLines parser tagf lines).1.length +
      (classifyLines parser tagf lines).2.length = lines.length := by
  intro lines
  induction lines with
  | nil => simp [classifyLines]
  | cons l rest ih =>
    simp only [classifyLines, List.length_cons]
    split
    · split
      · simp only [List.length_cons]
        omega
      · simp only [List.length_cons]
        omega
    · simp only [List.length_cons]
      omega

theorem reconcileLoop_length (emap : String → Option ExistingInfo) (deck : String) :
    ∀ (cards : List ParsedCard) (claimed : List String),
    (reconcileLoop emap deck cards claimed).1.length +
      (reconcileLoop emap deck cards claimed).2.1.length = cards.length ∧
    (reconcileLoop emap deck cards claimed).2.2.length =
      (reconcileLoop emap deck cards claimed).2.1.length := by
  intro cards
  induction cards with
  | nil => intro claimed; simp [reconcileLoop]
  | cons c rest ih =>
    intro claimed
    simp only [reconcileLoop, List.length_cons]
    split
    · have := ih claimed
      simp only [List.length_cons]
      omega
    · split
      · have := ih claimed
        simp only [List.length_cons]
        omega
      · have := ih (c.front :: claimed)
        simp only [List.length_cons]
        omega

theorem skipped_filter_partition : ∀ sk : List SkippedCard,
    (sk.filter (fun c => c.note_id.isSome)).length +
      (sk.filter (fun c => c.note_id.isNone)).length = sk.length := by
  intro sk
  induction sk with
  | nil => simp
  | cons c rest ih =>
    rcases hc : c.note_id with _ | v
    · have e1 : (c :: rest).filter (fun x => x.note_id.isSome) =
          rest.filter (fun x => x.note_id.isSome) := by
        rw [List.filter_cons]
        simp [hc]
      have e2 : (c :: rest).filter (fun x => x.note_id.isNone) =
          c :: rest.filter (fun x => x.note_id.isNone) := by
        rw [List.filter_cons]
        simp [hc]
      rw [e1, e2, List.length_cons, List.length_cons]
      omega
    · have e1 : (c :: rest).filter (fun x => x.note_id.isSome) =
          c :: rest.filter (fun x => x.note_id.isSome) := by
        rw [List.filter_cons]
        simp [hc]
      have e2 : (c :: rest).filter (fun x => x.note_id.isNone) =
          rest.filter (fun x => x.note_id.isNone) := by
        rw [List.filter_cons]
        simp [hc]
      rw [e1, e2, List.length_cons, List.length_cons]
      omega

theorem countAdded_cons_some (v : Nat) (rs : List (Option Nat)) :
    countAdded (some v :: rs) = countAdded rs + 1 := by
  simp [countAdded, List.filter_cons]

theorem countAdded_cons_none (rs : List (Option Nat)) :
    countAdded (none :: rs) = countAdded rs := by
  simp [countAdded, List.filter_cons]

theorem collectFailed_spec : ∀ (l : List (Option Nat)) (ns : List Note) (ss : List String),
    l.length ≤ ns.length → l.length ≤ ss.length →
    ∃ k cards, collectFailed l ns ss = .ok (k, cards) ∧
      countAdded l + k = l.length ∧ cards.length = k := by
  intro l
  induction l with
  | nil =>
    intro ns ss _ _
    exact ⟨0, [], rfl, by simp [countAdded], rfl⟩
  | cons r rs ih =>
    intro ns ss h1 h2
    simp only [List.length_cons] at h1 h2
    rcases r with _ | v
    · rcases ns with _ | ⟨n, ns'⟩
      · simp at h1
      rcases ss with _ | ⟨s, ss'⟩
      · simp at h2
      simp only [List.length_cons] at h1 h2
      obtain ⟨k, cards, hc, hcount, hlen⟩ := ih ns' ss' (by omega) (by omega)
      refine ⟨k + 1, ⟨n.front, n.back, s⟩ :: cards, ?_, ?_, by simp [hlen]⟩
      · simp only [collectFailed, hc]
      · rw [countAdded_cons_none]
        simp only [List.length_cons]
        omega
    · have h1' : rs.length ≤ ns.tail.length := by
        rw [List.length_tail]; omega
      have h2' : rs.length ≤ ss.tail.length := by
        rw [List.length_tail]; omega
      obtain ⟨k, cards, hc, hcount, hlen⟩ := ih ns.tail ss.tail h1' h2'
      refine ⟨k, cards, ?_, ?_, hlen⟩
      · simp only [collectFailed, hc]
      · rw [countAdded_cons_some]
        simp only [List.length_cons]
        omega

/-! ## C5: duplicate within one submission -/

/-- C5: when two classified cards with the same front arrive in one
submission and that front is not in the store's duplicate map, the
reconciliation walk stages the first card for adding and puts the second
in the duplicate-in-batch bucket with no remote note id. -/
theorem reconcile_batch_duplicate (c1 c2 : ParsedCard)
    (emap : String → Option ExistingInfo) (deck : String)
    (hfront : c1.front = c2.front) (hmiss : emap c1.front = none) :
    reconcileLoop emap deck [c1, c2] [] =
      ([⟨c2.front, c2.back, none, "[Duplicate in this import session]"⟩],
        [⟨deck, MODEL_NAME, c1.front, c1.back, c1.tags⟩], [c1.line]) := by
  have hmiss2 : emap c2.front = none := by rw [← hfront]; exact hmiss
  simp [reconcileLoop, hmiss, hmiss2, ← hfront]

/-- Witness for C5 at two concrete cards sharing the front `"f"`. -/
theorem reconcile_batch_duplicate_witness :
    reconcileLoop (fun _ => none) "D" [⟨"f", "b1", [], "l1"⟩, ⟨"f", "b2", [], "l2"⟩] [] =
      ([⟨"f", "b2", none, "[Duplicate in this import session]"⟩],
        [⟨"D", MODEL_NAME, "f", "b1", []⟩], ["l1"]) :=
  reconcile_batch_duplicate ⟨"f", "b1", [], "l1"⟩ ⟨"f", "b2", [], "l2"⟩
    (fun _ => none) "D" rfl rfl

/-! ## C9: event protocol of one run -/

theorem shape_append (ps : List Event) (t : Event)
    (hp : ∀ e ∈ ps, e.isProgress = true) (ht : t.isTerminal = true) :
    ∃ ps' t', ps ++ [t] = ps' ++ [t'] ∧ (∀ e ∈ ps', e.isProgress = true) ∧
      t'.isTerminal = true := ⟨ps, t, rfl, hp, ht⟩

/-- C9: one execution of the import worker enqueues zero or more progress
events followed by exactly one terminal event (complete on success, error
on deck-resolution failure or an exception raised by a store call), and
no event of the run follows the terminal one. -/
theorem import_run_single_terminal
    (edeck : Except String Bool)
    (einfo : String → List String → Except String (String → Option ExistingInfo))
    (eadd : List Note → Except String (Option AddResponse))
    (deck_name : String) (parser : String → Option (String × String × Option String))
    (tagf : Option String → List String) (lines : List String) :
    ∃ ps t, importWorker edeck einfo eadd deck_name parser tagf lines = ps ++ [t] ∧
      (∀ e ∈ ps, e.isProgress = true) ∧ t.isTerminal = true := by
  simp only [importWorker]
  split
  · exact shape_append [Event.progress 5 _] _ (by simp [Event.isProgress]) (by rfl)
  · split
    · exact shape_append [Event.progress 5 _] _ (by simp [Event.isProgress]) (by rfl)
    · split
      · exact shape_append [Event.progress 5 _, Event.progress 15 _, Event.progress 50 _]
          _ (by simp [Event.isProgress]) (by rfl)
      · split
        · exact shape_append [Event.progress 5 _, Event.progress 15 _, Event.progress 50 _,
            Event.progress 65 _] _ (by simp [Event.isProgress]) (by rfl)
        · split
          · exact shape_append [Event.progress 5 _, Event.progress 15 _,
              Event.progress 50 _, Event.progress 65 _, Event.progress 95 _] _
              (by simp [Event.isProgress]) (by rfl)
          · exact shape_append [Event.progress 5 _, Event.progress 15 _,
              Event.progress 50 _, Event.progress 65 _, Event.progress 95 _] _
              (by simp [Event.isProgress]) (by rfl)

/-! ## C2: partition completeness, and C4: outright bulk-add failure -/

theorem fallbackCounts_sum (notes : List Note) (srcs : List String) :
    (fallbackCounts notes srcs).1 + (fallbackCounts notes srcs).2.1 = notes.length := by
  unfold fallbackCounts
  split
  · simp
  next h =>
    rw [not_not.mp h]
    simp

theorem finishCounts_partition (notes : List Note) (srcs : List String)
    (resp : Option AddResponse) (hsrcs : srcs.length = notes.length)
    (hlen : ∀ rr l, resp = some rr → rr.result = some l → l.length = notes.length) :
    ∃ a f cards, finishCounts notes srcs resp = .ok (a, f, cards) ∧
      a + f = notes.length := by
  rcases resp with _ | rr
  · exact ⟨(fallbackCounts notes srcs).1, (fallbackCounts notes srcs).2.1,
      (fallbackCounts notes srcs).2.2, rfl, fallbackCounts_sum notes srcs⟩
  · rcases hres : rr.result with _ | l
    · refine ⟨(fallbackCounts notes srcs).1, (fallbackCounts notes srcs).2.1,
        (fallbackCounts notes srcs).2.2, ?_, fallbackCounts_sum notes srcs⟩
      simp only [finishCounts, hres]
    · by_cases hl : l = []
      · subst hl
        refine ⟨(fallbackCounts notes srcs).1, (fallbackCounts notes srcs).2.1,
          (fallbackCounts notes srcs).2.2, ?_, fallbackCounts_sum notes srcs⟩
        simp only [finishCounts, hres]
        simp
      · have hll := hlen rr l rfl hres
        obtain ⟨k, cards, hc, hcount, _⟩ := collectFailed_spec l notes srcs
          (le_of_eq hll) (by rw [hsrcs]; exact le_of_eq hll)
        refine ⟨countAdded l, k, cards, ?_, by omega⟩
        simp only [finishCounts, hres, hc]
        rw [if_pos hl]

theorem finishCounts_failure (notes : List Note) (srcs : List String)
    (resp : Option AddResponse) (hne : notes ≠ [])
    (hfail : resp = none ∨ ∃ rr, resp = some rr ∧
      (rr.result = none ∨ rr.result = some [])) :
    finishCounts notes srcs resp =
      .ok (0, notes.length,
        (notes.zip srcs).map (fun p => ⟨p.1.front, p.1.back, p.2⟩)) := by
  have hfb : fallbackCounts notes srcs =
      (0, notes.length, (notes.zip srcs).map (fun p => ⟨p.1.front, p.1.back, p.2⟩)) := by
    unfold fallbackCounts
    rw [if_pos hne]
  rcases hfail with h | ⟨rr, hrr, hres⟩
  · subst h
    simp only [finishCounts, hfb]
  · subst hrr
    rcases hres with h | h
    · simp only [finishCounts, h, hfb]
    · simp only [finishCounts, h, hfb]
      simp

/-- C2: in a run that reaches the complete event (deck check, duplicate
lookup and bulk add all return), the five outcome counts partition the
non-blank input lines, assuming the positional bulk-add reply has one
entry per staged record. -/
theorem import_complete_partition
    (edeck : Except String Bool)
    (einfo : String → List String → Except String (String → Option ExistingInfo))
    (eadd : List Note → Except String (Option AddResponse))
    (deck_name : String) (parser : String → Option (String × String × Option String))
    (tagf : Option String → List String) (lines : List String)
    (emap : String → Option ExistingInfo) (resp : Option AddResponse)
    (hdeck : edeck = Except.ok true)
    (hinfo : einfo deck_name
      (List.map (fun c => c.front) (classifyLines parser tagf lines).1) = Except.ok emap)
    (hadd : (if (reconcileLoop emap deck_name (classifyLines parser tagf lines).1
          []).2.1.isEmpty then Except.ok none
        else eadd (reconcileLoop emap deck_name (classifyLines parser tagf lines).1
          []).2.1) = Except.ok resp)
    (hlen : ∀ rr l, resp = some rr → rr.result = some l →
      l.length = (reconcileLoop emap deck_name (classifyLines parser tagf lines).1
        []).2.1.length) :
    ∃ es counts sk fl un,
      importWorker edeck einfo eadd deck_name parser tagf lines =
        es ++ [Event.complete counts sk fl un] ∧
      counts.added + (sk.filter (fun c => c.note_id.isSome)).length +
        (sk.filter (fun c => c.note_id.isNone)).length + counts.failed +
        counts.unparsable = lines.length := by
  have hpart := skipped_filter_partition
    (reconcileLoop emap deck_name (classifyLines parser tagf lines).1 []).1
  have hcl := classifyLines_length parser tagf lines
  have hrl := reconcileLoop_length emap deck_name (classifyLines parser tagf lines).1 []
  obtain ⟨a, f, cards, hok, hsum⟩ := finishCounts_partition
    (reconcileLoop emap deck_name (classifyLines parser tagf lines).1 []).2.1
    (reconcileLoop emap deck_name (classifyLines parser tagf lines).1 []).2.2
    resp hrl.2 hlen
  simp only [importWorker]
  split
  next => exact absurd hdeck (by simp)
  next =>
    injection hdeck with hd
    subst hd
    rw [if_neg (by simp)]
    split
    next e heq2 => rw [hinfo] at heq2; cases heq2
    next emap2 heq2 =>
      rw [hinfo] at heq2
      injection heq2 with heq2
      subst heq2
      split
      next e heq3 => rw [hadd] at heq3; cases heq3
      next resp2 heq3 =>
        rw [hadd] at heq3
        injection heq3 with heq3
        subst heq3
        split
        next e heqf => rw [hok] at heqf; cases heqf
        next afc heqf =>
          rw [hok] at heqf
          injection heqf with heqf
          subst heqf
          refine ⟨[Event.progress 5 _, Event.progress 15 _, Event.progress 50 _,
            Event.progress 65 _, Event.progress 95 _], _, _, _, _, (by rfl), ?_⟩
          dsimp only
          omega

/-- Witness for C2: one line that classifies and is added, with the store
reporting one successful note id. -/
theorem import_complete_partition_witness :
    ∃ es counts sk fl un,
      importWorker (Except.ok true)
        (fun _ _ => Except.ok (fun _ => none))
        (fun _ => Except.ok (some ⟨some [some 1], none⟩))
        "Japanese::Passive" parse_passive_line passiveTagRule ["(a) b"] =
        es ++ [Event.complete counts sk fl un] ∧
      counts.added + (sk.filter (fun c => c.note_id.isSome)).length +
        (sk.filter (fun c => c.note_id.isNone)).length + counts.failed +
        counts.unparsable = ["(a) b"].length :=
  import_complete_partition (Except.ok true)
    (fun _ _ => Except.ok (fun _ => none))
    (fun _ => Except.ok (some ⟨some [some 1], none⟩))
    "Japanese::Passive" parse_passive_line passiveTagRule ["(a) b"]
    (fun _ => none) (some ⟨some [some 1], none⟩)
    rfl rfl (by rfl) (by intro rr l h1 h2; cases h1; cases h2; decide)

/-- C4: when at least one note is staged and the bulk-add response is
absent or carries no positional result list, the run still ends with a
complete event in which every staged record counts as a failed write and
appears, in order, in the failed-cards detail. -/
theorem bulk_add_outright_failure
    (edeck : Except String Bool)
    (einfo : String → List String → Except String (String → Option ExistingInfo))
    (eadd : List Note → Except String (Option AddResponse))
    (deck_name : String) (parser : String → Option (String × String × Option String))
    (tagf : Option String → List String) (lines : List String)
    (emap : String → Option ExistingInfo) (resp : Option AddResponse)
    (hdeck : edeck = Except.ok true)
    (hinfo : einfo deck_name
      (List.map (fun c => c.front) (classifyLines parser tagf lines).1) = Except.ok emap)
    (hne : (reconcileLoop emap deck_name (classifyLines parser tagf lines).1 []).2.1 ≠ [])
    (hadd : eadd (reconcileLoop emap deck_name (classifyLines parser tagf lines).1 []).2.1
      = Except.ok resp)
    (hfail : resp = none ∨ ∃ rr, resp = some rr ∧
      (rr.result = none ∨ rr.result = some [])) :
    ∃ es counts sk un,
      importWorker edeck einfo eadd deck_name parser tagf lines =
        es ++ [Event.complete counts sk
          (((reconcileLoop emap deck_name (classifyLines parser tagf lines).1 []).2.1.zip
            (reconcileLoop emap deck_name (classifyLines parser tagf lines).1 []).2.2).map
            (fun p => ⟨p.1.front, p.1.back, p.2⟩)) un] ∧
      counts.failed =
        (reconcileLoop emap deck_name (classifyLines parser tagf lines).1 []).2.1.length ∧
      (((reconcileLoop emap deck_name (classifyLines parser tagf lines).1 []).2.1.zip
        (reconcileLoop emap deck_name (classifyLines parser tagf lines).1 []).2.2).map
        (fun p : Note × String => FailedCard.mk p.1.front p.1.back p.2)).length =
        (reconcileLoop emap deck_name (classifyLines parser tagf lines).1 []).2.1.length := by
  have hrl := reconcileLoop_length emap deck_name (classifyLines parser tagf lines).1 []
  have hzlen : (((reconcileLoop emap deck_name (classifyLines parser tagf lines).1
      []).2.1.zip (reconcileLoop emap deck_name
      (classifyLines parser tagf lines).1 []).2.2).map
      (fun p : Note × String => FailedCard.mk p.1.front p.1.back p.2)).length =
      (reconcileLoop emap deck_name (classifyLines parser tagf lines).1 []).2.1.length := by
    rw [List.length_map, List.length_zip, hrl.2]
    exact Nat.min_self _
  have hie : ¬ ((reconcileLoop emap deck_name (classifyLines parser tagf lines).1
      []).2.1.isEmpty = true) := by
    rw [List.isEmpty_iff]
    exact hne
  have hok := finishCounts_failure
    (reconcileLoop emap deck_name (classifyLines parser tagf lines).1 []).2.1
    (reconcileLoop emap deck_name (classifyLines parser tagf lines).1 []).2.2
    resp hne hfail
  simp only [importWorker]
  split
  next => exact absurd hdeck (by simp)
  next =>
    injection hdeck with hd
    subst hd
    rw [if_neg (by simp)]
    split
    next e heq2 => rw [hinfo] at heq2; cases heq2
    next emap2 heq2 =>
      rw [hinfo] at heq2
      injection heq2 with heq2
      subst heq2
      split
      next e heq3 => rw [if_neg hie, hadd] at heq3; cases heq3
      next resp2 heq3 =>
        rw [if_neg hie, hadd] at heq3
        injection heq3 with heq3
        subst heq3
        split
        next e heqf => rw [hok] at heqf; cases heqf
        next afc heqf =>
          rw [hok] at heqf
          injection heqf with heqf
          subst heqf
          exact ⟨[Event.progress 5 _, Event.progress 15 _, Event.progress 50 _,
            Event.progress 65 _, Event.progress 95 _], _, _, _, (by rfl), rfl, hzlen⟩

/-- Witness for C4: one staged card and a bulk-add reply with no result
list. -/
theorem bulk_add_outright_failure_witness :
    ∃ es counts sk un,
      importWorker (Except.ok true)
        (fun _ _ => Except.ok (fun _ => none))
        (fun _ => Except.ok none)
        "Japanese::Passive" parse_passive_line passiveTagRule ["(a) b"] =
        es ++ [Event.complete counts sk
          (((reconcileLoop (fun _ => none) "Japanese::Passive"
            (classifyLines parse_passive_line passiveTagRule ["(a) b"]).1 []).2.1.zip
            (reconcileLoop (fun _ => none) "Japanese::Passive"
            (classifyLines parse_passive_line passiveTagRule ["(a) b"]).1 []).2.2).map
            (fun p => ⟨p.1.front, p.1.back, p.2⟩)) un] ∧
      counts.failed = (reconcileLoop (fun _ => none) "Japanese::Passive"
        (classifyLines parse_passive_line passiveTagRule ["(a) b"]).1 []).2.1.length ∧
      (((reconcileLoop (fun _ => none) "Japanese::Passive"
        (classifyLines parse_passive_line passiveTagRule ["(a) b"]).1 []).2.1.zip
        (reconcileLoop (fun _ => none) "Japanese::Passive"
        (classifyLines parse_passive_line passiveTagRule ["(a) b"]).1 []).2.2).map
        (fun p : Note × String => FailedCard.mk p.1.front p.1.back p.2)).length =
        (reconcileLoop (fun _ => none) "Japanese::Passive"
        (classifyLines parse_passive_line passiveTagRule ["(a) b"]).1 []).2.1.length :=
  bulk_add_outright_failure (Except.ok true)
    (fun _ _ => Except.ok (fun _ => none)) (fun _ => Except.ok none)
    "Japanese::Passive" parse_passive_line passiveTagRule ["(a) b"]
    (fun _ => none) none rfl rfl (by decide) rfl (Or.inl rfl)

/-! ## C6: the duplicate-lookup query -/

theorem pyJoin_glue (sep a b : String) : ∀ t : List String,
    pyJoin sep ((a ++ sep ++ b) :: t) = a ++ sep ++ pyJoin sep (b :: t)
  | [] => rfl
  | c :: t => by
    simp only [pyJoin, String.append_assoc]

theorem queryLoop_pyJoin : ∀ (rest : List String) (p x : String),
    queryLoop (p ++ x) rest =
      p ++ pyJoin " or " (x :: rest.map (fun e => "\"Front:" ++ e ++ "\"")) := by
  intro rest
  induction rest with
  | nil => intro p x; rfl
  | cons f r ih =>
    intro p x
    simp only [queryLoop, List.map_cons]
    have hsplit : p ++ x ++ " or \"Front:" ++ f ++ "\"" =
        p ++ (x ++ " or " ++ ("\"Front:" ++ f ++ "\"")) := by
      have he : (" or \"Front:" : String) = " or " ++ "\"Front:" := by decide
      rw [he]
      simp only [String.append_assoc]
    rw [hsplit, ih p (x ++ " or " ++ ("\"Front:" ++ f ++ "\"")),
      pyJoin_glue " or " x ("\"Front:" ++ f ++ "\"")]
    exact rfl

/-- C6: for a nonempty front list, the composed `findNotes` query is
exactly the parenthesized ` or `-joined disjunction of `"Front:<escaped>"`
terms required by the spec, with quotes escaped, and the deck name plays
no part in it (the lookup is global, not deck-scoped). -/
theorem duplicate_lookup_query_spec (deck : String) (fronts : List String)
    (h : fronts ≠ []) :
    get_info_query deck fronts = some (specQuery fronts) ∧
    ∀ deck2, get_info_query deck fronts = get_info_query deck2 fronts := by
  refine ⟨?_, fun deck2 => rfl⟩
  rcases fronts with _ | ⟨f0, rest⟩
  · exact absurd rfl h
  · simp only [get_info_query, List.map_cons, specQuery]
    have hsplit : ("(\"Front:" : String) ++ escapeQuotes f0 ++ "\"" =
        "(" ++ ("\"Front:" ++ escapeQuotes f0 ++ "\"") := by
      have he : ("(\"Front:" : String) = "(" ++ "\"Front:" := by decide
      rw [he]
      simp only [String.append_assoc]
    rw [hsplit, queryLoop_pyJoin (rest.map escapeQuotes) "("
      ("\"Front:" ++ escapeQuotes f0 ++ "\""), List.map_map]
    rfl

/-- Witness for C6 at the fronts `["a\"b", "c"]` (with a quote character
to be escaped) and two different deck names. -/
theorem duplicate_lookup_query_spec_witness :
    get_info_query "Japanese::Passive" ["a\"b", "c"] =
      some "(\"Front:a\\\"b\" or \"Front:c\")" ∧
    get_info_query "Japanese::Passive" ["a\"b", "c"] =
      get_info_query "Other" ["a\"b", "c"] := by
  have h := duplicate_lookup_query_spec "Japanese::Passive" ["a\"b", "c"]
    (by decide)
  exact ⟨h.1.trans (by decide), h.2 "Other"⟩

/-! ## C7: merge-and-reschedule -/

/-- C7: the merge-and-reschedule action writes old-back, a visible
separator, then new-back into the note's Back field, and then, given a
nonempty findCards result, reschedules that note: it looks up the note's
cards, unsuspends them, and forgets them (resets to new), in that
order. -/
theorem merge_and_reschedule_trace (note_id : Nat) (back_old back_new : String)
    (cs : List Nat) (hcs : cs ≠ []) :
    on_append_trace note_id back_old back_new (some (some cs)) =
      [AnkiAction.updateNoteFields note_id
        [("Back", back_old ++ "<br><hr>" ++ back_new)],
       AnkiAction.findCards ("nid:" ++ toString note_id),
       AnkiAction.unsuspend cs, AnkiAction.forgetCards cs] := by
  rcases cs with _ | ⟨c, cs2⟩
  · exact absurd rfl hcs
  · simp [on_append_trace, reset_cards_trace, pyJoin]

/-- Witness for C7 at note id 7, backs "old"/"new" and cards [1, 2]. -/
theorem merge_and_reschedule_trace_witness :
    on_append_trace 7 "old" "new" (some (some [1, 2])) =
      [AnkiAction.updateNoteFields 7 [("Back", "old<br><hr>new")],
       AnkiAction.findCards "nid:7", AnkiAction.unsuspend [1, 2],
       AnkiAction.forgetCards [1, 2]] := by
  rw [merge_and_reschedule_trace 7 "old" "new" [1, 2] (by decide)]
  decide

end AnkiAuto
